import Mathlib

/-!
Verification of the gamearchivejs core: the format-handler abstraction,
the autodetection dispatch engine (`GameArchive.findHandler`), and the
representative F.A.S.T. `.DAT` format handler (`Archive_DAT_FAST`).

Byte buffers (`Uint8Array` contents) are modelled as `List Nat`; JavaScript
strings are modelled as Lean `String` (for names built by the code) or as
lists of character codes (for names decoded from raw bytes, where each byte
of the fixed-width field becomes one character whose `charCodeAt` equals the
byte value).  The external compression transforms from the gamecomp package
are opaque collaborators and appear as explicit function parameters.
-/

/-- sizeof(fatEntry): 2 + 2 + 31 + 2 bytes. -/
def FATENTRY_LEN : Nat := 37

/-- Safety limit on the number of records walked; the actual format is
unlimited. -/
def MAX_FILES : Nat := 1024

/-- Decode a 2-byte little-endian unsigned integer from its two bytes. -/
def u16le (b0 b1 : Nat) : Nat := b0 + 256 * b1

/-- One decoded FAT record (`recordTypes.fatEntry`).  The `name` holds the
character codes of the decoded filename string: the fixed 31-byte field cut
at its terminator byte. -/
structure FatEntry where
  typeCode : Nat
  compressedSize : Nat
  name : List Nat
  decompressedSize : Nat
deriving DecidableEq, Repr

/-- Decode of `RecordType.string.fixed.reqTerm`: the stored bytes up to the
first zero terminator byte. -/
def decodeName (bs : List Nat) : List Nat := bs.takeWhile (fun b => b != 0)

/-- Read one 37-byte FAT record from the front of the buffer
(`buffer.readRecord(recordTypes.fatEntry)`): bytes 0-1 are the type code,
bytes 2-3 the compressed size, bytes 4-34 the fixed-width terminated
filename, bytes 35-36 the decompressed size.  Callers have already checked
that at least `FATENTRY_LEN` bytes remain, so the catch-all branch is
unreachable. -/
def readFatEntry (bytes : List Nat) : FatEntry :=
  match bytes with
  | b0 :: b1 :: b2 :: b3 :: rest =>
    { typeCode := u16le b0 b1
      compressedSize := u16le b2 b3
      name := decodeName (rest.take 31)
      decompressedSize := u16le ((rest.drop 31).getD 0 0) ((rest.drop 31).getD 1 0) }
  | _ => { typeCode := 0, compressedSize := 0, name := [], decompressedSize := 0 }

/-- The per-character rejection test in `Archive_DAT_FAST.identify`:
`(cc <= 32) || (cc > 126)` on the character code. -/
def badChar (c : Nat) : Bool := decide (c ≤ 32) || decide (126 < c)

/-- The record-walking loop of `Archive_DAT_FAST.identify`, with the loop
counter (`MAX_FILES - i` iterations remaining) made explicit.  Mirrors the
source exactly: empty buffer is a clean end (true); a partial record is a
truncated archive (false); a filename character outside 33..126 is decisive
rejection (false); a declared compressed size running past the end of the
buffer is rejection (false); otherwise skip the file body and continue.
Exhausting the counter means too many files (false). -/
def fastIdentifyGo : Nat → List Nat → Bool
  | 0, _ => false
  | fuel + 1, bytes =>
    if bytes.length = 0 then true
    else if bytes.length < FATENTRY_LEN then false
    else
      let e := readFatEntry bytes
      if e.name.any badChar then false
      else if (bytes.drop FATENTRY_LEN).length < e.compressedSize then false
      else fastIdentifyGo fuel ((bytes.drop FATENTRY_LEN).drop e.compressedSize)

/-- The boolean verdict computed by `Archive_DAT_FAST.identify`. -/
def fastIdentifyB (bytes : List Nat) : Bool := fastIdentifyGo MAX_FILES bytes

/-- A JavaScript value returned by a handler identify method: either a bare
primitive boolean (as `Archive_DAT_FAST.identify` returns) or an object
carrying `valid` and `reason` properties (as the `ArchiveHandler` base class
documents and returns). -/
inductive IdentifyResult where
  | bool (b : Bool)
  | obj (valid : Option Bool) (reason : String)
deriving DecidableEq, Repr

/-- Reading the `.valid` property in JavaScript: on an object it is the
stored tri-state (`none` models `undefined`); on a primitive boolean the
property does not exist, so the read yields `undefined`. -/
def IdentifyResult.validProp : IdentifyResult → Option Bool
  | .bool _ => none
  | .obj v _ => v

/-- Whether the returned value is an object with `valid`/`reason`
properties. -/
def IdentifyResult.isObj : IdentifyResult → Bool
  | .bool _ => false
  | .obj _ _ => true

namespace Archive_DAT_FAST

/-- `Archive_DAT_FAST.identify(content)` as written: it returns the bare
boolean verdict of the record walk, not a `{valid, reason}` object. -/
def identify (content : List Nat) : IdentifyResult :=
  .bool (fastIdentifyB content)

end Archive_DAT_FAST

namespace ArchiveHandler

/-- The base-class `ArchiveHandler.identify(content, filename)`: an object
with `valid: false` and an explanatory reason. -/
def identify (_content : List Nat) (_filename : String) : IdentifyResult :=
  .obj (some false)
    ("The identify() function has not been implemented by the format "
      ++ "handler, so autodetecting this format is not possible.")

end ArchiveHandler

/-- Build the 37 bytes of one FAT record: type code and compressed size as
u16le, the 31-byte zero-padded filename field, then the decompressed size
as u16le.  Well-formed when the name has at most 30 characters, leaving
room for the required terminator. -/
def mkRecord (tc cs : Nat) (name : List Nat) (ds : Nat) : List Nat :=
  ([tc % 256, tc / 256, cs % 256, cs / 256] ++
    (name ++ List.replicate (31 - name.length) 0)) ++ [ds % 256, ds / 256]

/-- A record with an in-range name field has exactly `FATENTRY_LEN` bytes. -/
theorem mkRecord_length (tc cs ds : Nat) (name : List Nat)
    (h1 : name.length ≤ 31) :
    (mkRecord tc cs name ds).length = FATENTRY_LEN := by
  simp [mkRecord, FATENTRY_LEN]
  omega

theorem takeWhile_append_replicate_zero (l : List Nat) (k : Nat) (hk : 0 < k)
    (h0 : ∀ c ∈ l, c ≠ 0) :
    (l ++ List.replicate k 0).takeWhile (fun b => b != 0) = l := by
  induction l with
  | nil =>
    cases k with
    | zero => omega
    | succ k => simp [List.replicate_succ, List.takeWhile]
  | cons c l ih =>
    have hc : (c != 0) = true := by
      simpa using h0 c (List.mem_cons_self c l)
    have hl : ∀ x ∈ l, x ≠ 0 := fun x hx => h0 x (List.mem_cons_of_mem c hx)
    simp only [List.cons_append, List.takeWhile, hc]
    simp [ih hl]

/-- The name field written by `mkRecord` decodes back to the name. -/
theorem decodeName_padded (name : List Nat) (h1 : name.length ≤ 30)
    (h0 : ∀ c ∈ name, c ≠ 0) :
    decodeName (name ++ List.replicate (31 - name.length) 0) = name :=
  takeWhile_append_replicate_zero name _ (by omega) h0

/-- Reading a record built by `mkRecord` recovers its fields. -/
theorem readFatEntry_mkRecord (tc cs ds : Nat) (name tail : List Nat)
    (h1 : name.length ≤ 30) (h0 : ∀ c ∈ name, c ≠ 0) :
    readFatEntry (mkRecord tc cs name ds ++ tail) =
      { typeCode := u16le (tc % 256) (tc / 256)
        compressedSize := u16le (cs % 256) (cs / 256)
        name := name
        decompressedSize := u16le (ds % 256) (ds / 256) } := by
  have hname31 : (name ++ List.replicate (31 - name.length) 0).length = 31 := by
    simp
    omega
  have harg : mkRecord tc cs name ds ++ tail =
      tc % 256 :: tc / 256 :: cs % 256 :: cs / 256 ::
        (((name ++ List.replicate (31 - name.length) 0) ++
          [ds % 256, ds / 256]) ++ tail) := rfl
  rw [harg]
  simp only [readFatEntry]
  rw [List.append_assoc (name ++ List.replicate (31 - name.length) 0)
    [ds % 256, ds / 256] tail]
  rw [List.take_left' hname31, List.drop_left' hname31]
  rw [decodeName_padded name h1 h0]
  rfl

/-- The bytes following a well-formed record are recovered by dropping the
record length. -/
theorem mkRecord_append_drop (tc cs ds : Nat) (name tail : List Nat)
    (h1 : name.length ≤ 30) :
    (mkRecord tc cs name ds ++ tail).drop FATENTRY_LEN = tail :=
  List.drop_left' (mkRecord_length tc cs ds name (by omega))

/-- The `FASTTypes` table in source (insertion) order, which for these
integer-like keys is also ascending numeric order, the order
`Object.keys` enumerates them in: type code, filename extension, semantic
type. -/
def FASTTypesList : List (Nat × String × Option String) :=
  [(0, ".mif", some "map/fast-info"),
   (1, ".mbg", some "map/fast-bg"),
   (2, ".mfg", some "map/fast-fg"),
   (3, ".tbg", some "tileset/fast-4p"),
   (4, ".tfg", some "tileset/fast-5p"),
   (5, ".tbn", some "tileset/fast-5p"),
   (6, ".sgl", some "map/fast-spritelist"),
   (7, ".msp", some "map/fast-sprites"),
   (8, "", some "sound/inverse"),
   (12, ".pbg", some "data/fast-tileprops"),
   (13, ".pfg", some "data/fast-tileprops"),
   (14, ".pal", some "palette/ega"),
   (16, ".pbn", some "data/fast-tileprops"),
   (32, "", none),
   (64, ".spr", some "image/fast-sprite")]

/-- `FASTTypes[typeCode]`: the (extension, semantic type) pair for a type
code, or `none` when the code is not a key of the table. -/
def FASTTypes (tc : Nat) : Option (String × Option String) :=
  (FASTTypesList.find? (fun e => e.1 == tc)).map (fun e => e.2)

/-- Turn decoded character codes into the JavaScript string they denote. -/
def codesToString (cs : List Nat) : String :=
  String.mk (cs.map Char.ofNat)

/-- One member file of the in-memory `Archive` built by
`Archive_DAT_FAST.parse`.  `compressed` models
`file.attributes.compressed`; `raw` is the byte range `getRaw()` returns. -/
structure ParsedFile where
  name : String
  type : Option String
  diskSize : Nat
  offset : Nat
  nativeSize : Nat
  compressed : Bool
  raw : List Nat
deriving DecidableEq, Repr

namespace Archive_DAT_FAST

/-- Build one member file from a decoded FAT record, the offset of its
body, and the bytes following the record (loop body of `parse`): resolve
the type code through `FASTTypes` (appending the extension when the code is
in the table), take the declared compressed size as `diskSize` and the raw
byte range, and use the decompressed-size sentinel (0 = stored
uncompressed) to set `nativeSize` and the compressed attribute. -/
def mkParsedFile (e : FatEntry) (off : Nat) (rest : List Nat) : ParsedFile :=
  { name :=
      match FASTTypes e.typeCode with
      | some p => codesToString e.name ++ p.1
      | none => codesToString e.name
    type :=
      match FASTTypes e.typeCode with
      | some p => p.2
      | none => none
    diskSize := e.compressedSize
    offset := off
    nativeSize :=
      if e.decompressedSize = 0 then e.compressedSize else e.decompressedSize
    compressed := e.decompressedSize != 0
    raw := rest.take e.compressedSize }

/-- The record-walking loop of `parse`, with the loop counter explicit.
Exactly at end of buffer the loop breaks and the archive so far is
returned; `readRecord` on a partial trailing record throws inside the
record-io-buffer collaborator (the source marks this case TODO), modelled
as an error; otherwise one member file is built and the cursor advances
past the file body.  When the counter runs out the archive built so far is
returned with the remaining bytes ignored. -/
def parseGo : Nat → List Nat → Nat → List ParsedFile → Except String (List ParsedFile)
  | 0, _, _, acc => Except.ok acc.reverse
  | fuel + 1, bytes, nextOffset, acc =>
    if bytes.length = 0 then Except.ok acc.reverse
    else if bytes.length < FATENTRY_LEN then
      Except.error "read past end of buffer"
    else
      let e := readFatEntry bytes
      parseGo fuel ((bytes.drop FATENTRY_LEN).drop e.compressedSize)
        (nextOffset + e.compressedSize + FATENTRY_LEN)
        (mkParsedFile e nextOffset (bytes.drop FATENTRY_LEN) :: acc)

/-- `Archive_DAT_FAST.parse`: walk up to `MAX_FILES` records, the first
file body starting right after the first FAT entry. -/
def parse (content : List Nat) : Except String (List ParsedFile) :=
  parseGo MAX_FILES content FATENTRY_LEN []

end Archive_DAT_FAST

/-- The logical content accessor of a parsed member file, with the two
gamecomp transforms (`cmp-lzw` and `cmp-rle-bash` `reveal`, as configured
by `cmpDefaultParams`) passed in as opaque collaborators.  For a compressed
file this is the overridden `getContent` from `parse`: decompress with LZW,
decode with RLE, then truncate to `nativeSize` because the transform chain
often leaves an extra trailing byte.  For an uncompressed file the
`Archive.File` base accessor applies; its class is not part of the sources
analysed here, so that branch is modelled from the spec: `getContent()`
returns the logical bytes, which for a stored-uncompressed entry are the
raw on-disk bytes. -/
def ParsedFile.getContent (lzwReveal rleReveal : List Nat → List Nat)
    (f : ParsedFile) : List Nat :=
  if f.compressed then (rleReveal (lzwReveal f.raw)).take f.nativeSize
  else f.raw

/-- JavaScript `s.substr(-4)`: the last four characters, or the whole
string when it is shorter than four characters. -/
def substrLast4 (s : String) : String :=
  String.mk (s.toList.drop (s.toList.length - 4))

/-- JavaScript `s.toLowerCase()` on the ASCII strings involved here. -/
def jsToLower (s : String) : String :=
  String.mk (s.toList.map Char.toLower)

/-- JavaScript `s.substr(0, s.length - 4)`: everything but the last four
characters. -/
def dropLast4 (s : String) : String :=
  String.mk (s.toList.take (s.toList.length - 4))

/-- The `Object.keys(FASTTypes).some(...)` scan in `generate`: find the
first table entry whose extension is non-empty and equals `ext`. -/
def findExtCode (ext : String) : Option Nat :=
  (FASTTypesList.find? (fun e => !(e.2.1 == "") && e.2.1 == ext)).map
    (fun e => e.1)

/-- The type-code and stored-name computation at the top of the `generate`
loop body: default code 32 with the name unmodified; a name whose
lower-cased last four characters are ".snd" takes code 8 with the extension
retained; otherwise a table match on the extension gives that code and
strips the extension from the stored name. -/
def genTypeAndName (nm : String) : Nat × String :=
  let ext := jsToLower (substrLast4 nm)
  if ext = ".snd" then (8, nm)
  else
    match findExtCode ext with
    | some code => (code, dropLast4 nm)
    | none => (32, nm)

/-- A member file handed to `generate`: its name, declared logical size,
tri-state compressed attribute, and the bytes its `getContent()` returns. -/
structure GenFile where
  name : String
  nativeSize : Nat
  compressed : Option Bool
  content : List Nat
deriving DecidableEq, Repr

/-- A FAT record as assembled by `generate` before serialisation, with the
stored name still a string. -/
structure FatRecordOut where
  typeCode : Nat
  compressedSize : Nat
  name : String
  decompressedSize : Nat
deriving DecidableEq, Repr

namespace Archive_DAT_FAST

/-- The body of the `generate` loop for one member file, with the gamecomp
`obscure` transforms passed in as opaque collaborators.  Compute the type
code and stored name, fetch the logical content and fail hard when its
length disagrees with the declared `nativeSize`; then either store the
bytes unmodified with decompressed size 0 (attribute explicitly false) or
run the RLE-then-LZW compression chain and record both sizes.  Returns the
emitted record together with the file body bytes that follow it. -/
def generateOne (rleObscure lzwObscure : List Nat → List Nat) (f : GenFile) :
    Except String (FatRecordOut × List Nat) :=
  let tn := genTypeAndName f.name
  if f.content.length ≠ f.nativeSize then
    Except.error "Length of data and nativeSize field do not match!"
  else if f.compressed = some false then
    Except.ok ({ typeCode := tn.1, compressedSize := f.nativeSize,
                 name := tn.2, decompressedSize := 0 }, f.content)
  else
    let diskData := lzwObscure (rleObscure f.content)
    Except.ok ({ typeCode := tn.1, compressedSize := diskData.length,
                 name := tn.2, decompressedSize := f.nativeSize }, diskData)

/-- `Archive_DAT_FAST.generate` over the archive file list: emit one record
and body per member file in order; a thrown error aborts the whole
operation with no output. -/
def generate (rleObscure lzwObscure : List Nat → List Nat) :
    List GenFile → Except String (List (FatRecordOut × List Nat))
  | [] => Except.ok []
  | f :: fs =>
    match generateOne rleObscure lzwObscure f with
    | Except.error e => Except.error e
    | Except.ok r =>
      match generate rleObscure lzwObscure fs with
      | Except.error e => Except.error e
      | Except.ok rs => Except.ok (r :: rs)

end Archive_DAT_FAST

/-- A registered format handler as the dispatch engine sees it: its
metadata id and its identify method. -/
structure Handler where
  id : String
  identify : List Nat → String → IdentifyResult

/-- The `content` argument of `findHandler` as a JavaScript value: either a
`Uint8Array`-like buffer, whose `length` property is a number, or any other
value, whose `length` property reads as `undefined`. -/
inductive JSContent where
  | bytes (data : List Nat)
  | nonBuffer

namespace GameArchive

/-- The accumulation loop of `findHandler`: a certain match replaces
everything accumulated so far and stops the scan; a possible match
(`valid` reads as `undefined`) is appended and the scan continues; a
definite rejection is skipped. -/
def findLoop (acc : List Handler) :
    List Handler → List Nat → String → List Handler
  | [], _, _ => acc
  | x :: rest, c, f =>
    match (x.identify c f).validProp with
    | some true => [x]
    | none => findLoop (acc ++ [x]) rest c f
    | some false => findLoop acc rest c f

/-- `GameArchive.findHandler(content, filename)` over an explicit handler
registry: reject a content value with no `length` property up front, then
run the accumulation loop over the handlers in priority order. -/
def findHandler (handlers : List Handler) (content : JSContent)
    (filename : String) : Except String (List Handler) :=
  match content with
  | .nonBuffer => Except.error "content parameter must be Uint8Array"
  | .bytes d => Except.ok (findLoop [] handlers d filename)

/-- Instrumented variant of the accumulation loop that also records the ids
of the handlers whose identify method was invoked, in call order. -/
def findLoopTrace (acc : List Handler) (consulted : List String) :
    List Handler → List Nat → String → List Handler × List String
  | [], _, _ => (acc, consulted)
  | x :: rest, c, f =>
    match (x.identify c f).validProp with
    | some true => ([x], consulted ++ [x.id])
    | none => findLoopTrace (acc ++ [x]) (consulted ++ [x.id]) rest c f
    | some false => findLoopTrace acc (consulted ++ [x.id]) rest c f

/-- Instrumented `findHandler`: the result paired with the ids of the
handlers consulted. -/
def findHandlerTrace (handlers : List Handler) (content : JSContent)
    (filename : String) : Except String (List Handler) × List String :=
  match content with
  | .nonBuffer => (Except.error "content parameter must be Uint8Array", [])
  | .bytes d =>
    let r := findLoopTrace [] [] handlers d filename
    (Except.ok r.1, r.2)

end GameArchive

deriving instance DecidableEq for Except

/-- The identity transform, used to instantiate the opaque compression
collaborators in concrete instances. -/
def idTransform : List Nat → List Nat := fun l => l

/-- C8: `Archive_DAT_FAST.identify` on an input of exactly zero bytes
reaches the clean end-of-records boundary at once and returns the
affirmative verdict (a minimal valid empty archive), while an input of 10
bytes, more than zero but less than one 37-byte record, is rejected. -/
theorem identify_empty_and_truncated_boundary :
    Archive_DAT_FAST.identify [] = IdentifyResult.bool true ∧
    Archive_DAT_FAST.identify (List.replicate 10 0) =
      IdentifyResult.bool false := by
  decide

/-- C2: the FAST handler's identify returns a bare primitive boolean, not
an object with `valid` and `reason` properties; on the empty input (a
definite match) the returned value is the boolean `true`, it is not an
object, and reading its `.valid` property yields `undefined` rather than
`true`. -/
theorem fast_identify_returns_bare_boolean :
    Archive_DAT_FAST.identify [] = IdentifyResult.bool true ∧
    (Archive_DAT_FAST.identify []).isObj = false ∧
    (Archive_DAT_FAST.identify []).validProp = none := by
  decide

/-- C3: parsing a record with type code 1 and stored name LEVEL1 yields a
member file named LEVEL1.mbg of semantic type map/fast-bg; generating an
archive with a member file named LEVEL1.mbg emits a record with type code 1
and the stored name stripped back to LEVEL1; the extension match is
case-insensitive on the last four characters; a name ending .snd takes type
code 8 with the extension retained (also case-insensitively); an unmatched
extension falls back to type code 32 with the name unmodified. -/
theorem fast_ext_mapping_roundtrip :
    Archive_DAT_FAST.parse (mkRecord 1 0 [76, 69, 86, 69, 76, 49] 0) =
      Except.ok [{ name := "LEVEL1.mbg", type := some "map/fast-bg",
                   diskSize := 0, offset := 37, nativeSize := 0,
                   compressed := false, raw := [] }] ∧
    Archive_DAT_FAST.generate idTransform idTransform
        [{ name := "LEVEL1.mbg", nativeSize := 0, compressed := some false,
           content := [] }] =
      Except.ok [({ typeCode := 1, compressedSize := 0, name := "LEVEL1",
                    decompressedSize := 0 }, [])] ∧
    genTypeAndName "LEVEL1.MBG" = (1, "LEVEL1") ∧
    genTypeAndName "X.snd" = (8, "X.snd") ∧
    genTypeAndName "X.SND" = (8, "X.SND") ∧
    genTypeAndName "FOO.xyz" = (32, "FOO.xyz") := by
  refine ⟨by decide, by decide, by decide, by decide, by decide, by decide⟩

/-- C10: on a content value whose `length` property is `undefined`,
`findHandler` throws before consulting any handler: whatever the registry
holds, the result is the `content parameter must be Uint8Array` error, no
candidate list is produced, and the instrumented engine records that no
identify method was invoked. -/
theorem findHandler_non_buffer_throws (handlers : List Handler)
    (filename : String) :
    GameArchive.findHandler handlers JSContent.nonBuffer filename =
      Except.error "content parameter must be Uint8Array" ∧
    GameArchive.findHandlerTrace handlers JSContent.nonBuffer filename =
      (Except.error "content parameter must be Uint8Array", []) :=
  ⟨rfl, rfl⟩

/-- Closed instance of the non-buffer rejection at a concrete registry. -/
theorem findHandler_non_buffer_throws_witness :
    GameArchive.findHandler [] JSContent.nonBuffer "a.dat" =
      Except.error "content parameter must be Uint8Array" :=
  (findHandler_non_buffer_throws [] "a.dat").1

/-- When no handler in the remaining list reports a certain match, the
accumulation loop keeps the accumulator and appends every handler whose
`valid` reads as `undefined`, in order. -/
theorem findLoop_no_certain (d : List Nat) (fn : String) :
    ∀ (hs : List Handler) (acc : List Handler),
      (∀ x ∈ hs, (x.identify d fn).validProp ≠ some true) →
      GameArchive.findLoop acc hs d fn =
        acc ++ hs.filter (fun x => ((x.identify d fn).validProp).isNone) := by
  intro hs
  induction hs with
  | nil => intro acc _; simp [GameArchive.findLoop]
  | cons x rest ih =>
    intro acc h
    have hx : (x.identify d fn).validProp ≠ some true :=
      h x (List.mem_cons_self x rest)
    have hrest : ∀ y ∈ rest, (y.identify d fn).validProp ≠ some true :=
      fun y hy => h y (List.mem_cons_of_mem x hy)
    cases hv : (x.identify d fn).validProp with
    | none =>
      simp only [GameArchive.findLoop, hv]
      rw [ih (acc ++ [x]) hrest]
      simp [List.filter_cons, hv]
    | some b =>
      cases b with
      | true => exact absurd hv hx
      | false =>
        simp only [GameArchive.findLoop, hv]
        rw [ih acc hrest]
        simp [List.filter_cons, hv]

/-- The first handler reporting a certain match ends the scan with a
single-element result, whatever was accumulated before it. -/
theorem findLoop_first_certain (d : List Nat) (fn : String) (h : Handler)
    (post : List Handler) (hh : (h.identify d fn).validProp = some true) :
    ∀ (pre : List Handler) (acc : List Handler),
      (∀ x ∈ pre, (x.identify d fn).validProp ≠ some true) →
      GameArchive.findLoop acc (pre ++ h :: post) d fn = [h] := by
  intro pre
  induction pre with
  | nil =>
    intro acc _
    simp only [List.nil_append, GameArchive.findLoop, hh]
  | cons x rest ih =>
    intro acc hpre
    have hx : (x.identify d fn).validProp ≠ some true :=
      hpre x (List.mem_cons_self x rest)
    have hrest : ∀ y ∈ rest, (y.identify d fn).validProp ≠ some true :=
      fun y hy => hpre y (List.mem_cons_of_mem x hy)
    cases hv : (x.identify d fn).validProp with
    | none =>
      simp only [List.cons_append, GameArchive.findLoop, hv]
      exact ih (acc ++ [x]) hrest
    | some b =>
      cases b with
      | true => exact absurd hv hx
      | false =>
        simp only [List.cons_append, GameArchive.findLoop, hv]
        exact ih acc hrest

/-- C1: over any registry order, if some handler reports `valid === true`
then `findHandler` returns exactly the singleton of the first such handler,
discarding every possible candidate accumulated before it; if no handler
reports `true`, it returns precisely the handlers whose `valid` read as
`undefined`, in priority order.  In particular the result holds at most one
handler whenever some handler reports `true`. -/
theorem findHandler_dispatch_spec (handlers : List Handler) (d : List Nat)
    (fn : String) :
    (∀ pre h post, handlers = pre ++ h :: post →
      (h.identify d fn).validProp = some true →
      (∀ x ∈ pre, (x.identify d fn).validProp ≠ some true) →
      GameArchive.findHandler handlers (JSContent.bytes d) fn =
        Except.ok [h]) ∧
    ((∀ x ∈ handlers, (x.identify d fn).validProp ≠ some true) →
      GameArchive.findHandler handlers (JSContent.bytes d) fn =
        Except.ok (handlers.filter
          (fun x => ((x.identify d fn).validProp).isNone))) := by
  constructor
  · intro pre h post hsplit hh hpre
    show Except.ok (GameArchive.findLoop [] handlers d fn) = _
    rw [hsplit, findLoop_first_certain d fn h post hh pre [] hpre]
  · intro hnone
    show Except.ok (GameArchive.findLoop [] handlers d fn) = _
    rw [findLoop_no_certain d fn handlers [] hnone]
    rfl

/-- A handler that always reports a certain match. -/
def hCertain : Handler :=
  { id := "certain", identify := fun _ _ => .obj (some true) "sig found" }

/-- A handler that always reports a merely possible match. -/
def hPossible : Handler :=
  { id := "possible", identify := fun _ _ => .obj none "cannot tell" }

/-- A handler that always rejects. -/
def hReject : Handler :=
  { id := "reject", identify := fun _ _ => .obj (some false) "bad sig" }

/-- Closed instance of the dispatch behaviour: with a possible match ahead
of a certain one, the certain match wins and the earlier candidate is
discarded; and a registry with no certain match returns its possible
candidates. -/
theorem findHandler_dispatch_spec_witness :
    GameArchive.findHandler [hPossible, hCertain, hReject]
      (JSContent.bytes []) "a.dat" = Except.ok [hCertain] ∧
    GameArchive.findHandler [hPossible, hReject] (JSContent.bytes [])
      "a.dat" = Except.ok [hPossible] := by
  constructor
  · exact (findHandler_dispatch_spec [hPossible, hCertain, hReject] []
      "a.dat").1 [hPossible] hCertain [hReject] rfl rfl
      (by
        intro x hx
        rw [List.mem_singleton.mp hx]
        exact fun hfalse => Option.noConfusion hfalse)
  · have h2 := (findHandler_dispatch_spec [hPossible, hReject] [] "a.dat").2
      (by
        intro x hx
        rcases List.mem_cons.mp hx with h | h
        · rw [h]; exact fun hfalse => Option.noConfusion hfalse
        · rw [List.mem_singleton.mp h]
          exact fun hfalse =>
            Bool.noConfusion (Option.some.inj hfalse))
    rw [h2]
    rfl

/-- C4: whenever some member file's `getContent()` length disagrees with
its declared `nativeSize`, `generate` fails with the hard size-mismatch
error; no output bundle and in particular no record for the mismatched
file is ever produced. -/
theorem generate_size_mismatch_fails
    (rleObscure lzwObscure : List Nat → List Nat) (files : List GenFile)
    (f : GenFile) (hf : f ∈ files)
    (hmis : f.content.length ≠ f.nativeSize) :
    Archive_DAT_FAST.generate rleObscure lzwObscure files =
      Except.error "Length of data and nativeSize field do not match!" := by
  induction files with
  | nil => cases hf
  | cons g fs ih =>
    rcases List.mem_cons.mp hf with h | h
    · subst h
      simp only [Archive_DAT_FAST.generate, Archive_DAT_FAST.generateOne]
      rw [if_pos hmis]
    · by_cases hg : g.content.length = g.nativeSize
      · simp only [Archive_DAT_FAST.generate, Archive_DAT_FAST.generateOne]
        rw [if_neg (not_not_intro hg)]
        by_cases hcz : g.compressed = some false
        · rw [if_pos hcz, ih h]
        · rw [if_neg hcz, ih h]
      · simp only [Archive_DAT_FAST.generate, Archive_DAT_FAST.generateOne]
        rw [if_pos hg]
/-- A file whose declared logical size disagrees with its content. -/
def badSizeFile : GenFile :=
  { name := "BAD", nativeSize := 5, compressed := some false, content := [] }

/-- Closed instance of the generate-time size-mismatch failure. -/
theorem generate_size_mismatch_fails_witness :
    Archive_DAT_FAST.generate idTransform idTransform [badSizeFile] =
      Except.error "Length of data and nativeSize field do not match!" :=
  generate_size_mismatch_fails idTransform idTransform [badSizeFile]
    badSizeFile (List.mem_singleton.mpr rfl) (by decide)

/-- C5: for every compressed member file produced by `parse`, `getContent`
is exactly the first `nativeSize` bytes of the RLE-after-LZW decompression
of the raw bytes; when the transform output carries one trailing pad byte
(length `nativeSize + 1`), the result still has length exactly
`nativeSize` and agrees with the transform output on every index below
`nativeSize`. -/
theorem getContent_truncates_to_nativeSize
    (lzwReveal rleReveal : List Nat → List Nat) (content : List Nat)
    (files : List ParsedFile) (f : ParsedFile)
    (hp : Archive_DAT_FAST.parse content = Except.ok files) (hf : f ∈ files)
    (hc : f.compressed = true) :
    f.getContent lzwReveal rleReveal =
      (rleReveal (lzwReveal f.raw)).take f.nativeSize ∧
    ((rleReveal (lzwReveal f.raw)).length = f.nativeSize + 1 →
      (f.getContent lzwReveal rleReveal).length = f.nativeSize ∧
      ∀ i, i < f.nativeSize →
        (f.getContent lzwReveal rleReveal).getD i 0 =
          (rleReveal (lzwReveal f.raw)).getD i 0) := by
  have hdef : f.getContent lzwReveal rleReveal =
      (rleReveal (lzwReveal f.raw)).take f.nativeSize := by
    unfold ParsedFile.getContent
    rw [hc]
    rfl
  refine ⟨hdef, fun hlen => ⟨?_, ?_⟩⟩
  · rw [hdef, List.length_take, hlen]
    omega
  · intro i hi
    rw [hdef, List.getD_eq_getD_get?, List.getD_eq_getD_get?,
      List.get?_take hi]

/-- The parsed member file of the one-record compressed sample archive. -/
def compressedSample : ParsedFile :=
  { name := "A.mif", type := some "map/fast-info", diskSize := 1,
    offset := 37, nativeSize := 2, compressed := true, raw := [7] }

/-- A decompression stand-in whose output is one byte longer than the
sample's nativeSize. -/
def padOneByte : List Nat → List Nat := fun _ => [9, 9, 9]

/-- Closed instance of the decompression truncation property on the sample
archive. -/
theorem getContent_truncates_to_nativeSize_witness :
    ParsedFile.getContent idTransform padOneByte compressedSample =
      (padOneByte (idTransform compressedSample.raw)).take
        compressedSample.nativeSize ∧
    (ParsedFile.getContent idTransform padOneByte compressedSample).length =
      compressedSample.nativeSize := by
  have h := getContent_truncates_to_nativeSize idTransform padOneByte
    (mkRecord 0 1 [65] 2 ++ [7]) [compressedSample] compressedSample
    (by decide) (List.mem_singleton.mpr rfl) (by decide)
  exact ⟨h.1, (h.2 (by decide)).1⟩

/-- Unfolding of one iteration of the identify record walk. -/
theorem fastIdentifyGo_succ (fuel : Nat) (bytes : List Nat) :
    fastIdentifyGo (fuel + 1) bytes =
      if bytes.length = 0 then true
      else if bytes.length < FATENTRY_LEN then false
      else
        if (readFatEntry bytes).name.any badChar then false
        else if (bytes.drop FATENTRY_LEN).length <
            (readFatEntry bytes).compressedSize then false
        else fastIdentifyGo fuel
          ((bytes.drop FATENTRY_LEN).drop (readFatEntry bytes).compressedSize) :=
  rfl

/-- The printable, non-control, 7-bit ASCII range as the specification
words it: character codes 32 (space) through 126 (tilde) inclusive. -/
def specPrintable (s : List Nat) : Bool :=
  s.all (fun c => decide (32 ≤ c) && decide (c ≤ 126))

/-- C6 counterexample: the filename A B consists only of characters inside
the printable, non-control, 7-bit ASCII range 32..126, yet identify rejects
the record, because the source test `cc <= 32` also rejects the space
character (code 32). -/
theorem identify_rejects_space_in_printable_name :
    specPrintable [65, 32, 66] = true ∧
    Archive_DAT_FAST.identify (mkRecord 0 0 [65, 32, 66] 0) =
      IdentifyResult.bool false := by
  decide

/-- C6 (amended): a single-record archive is rejected at the
filename-validation step exactly when the decoded filename has some
character with code 32 or below, or above 126; equivalently only the
character codes 33..126 pass the filter. -/
theorem identify_name_validation_iff (name : List Nat)
    (h1 : name.length ≤ 30) (h2 : ∀ c ∈ name, 0 < c ∧ c < 256) :
    (Archive_DAT_FAST.identify (mkRecord 0 0 name 0) =
      IdentifyResult.bool false) ↔ name.any badChar = true := by
  have h0 : ∀ c ∈ name, c ≠ 0 := fun c hc => by
    have := (h2 c hc).1
    omega
  have hre : readFatEntry (mkRecord 0 0 name 0) = ⟨0, 0, name, 0⟩ := by
    have := readFatEntry_mkRecord 0 0 0 name [] h1 h0
    rw [List.append_nil] at this
    simpa [u16le] using this
  have hL : (mkRecord 0 0 name 0).length = FATENTRY_LEN :=
    mkRecord_length 0 0 0 name (by omega)
  have hd : (mkRecord 0 0 name 0).drop FATENTRY_LEN = [] := by
    have := mkRecord_append_drop 0 0 0 name [] h1
    rwa [List.append_nil] at this
  have key : fastIdentifyB (mkRecord 0 0 name 0) = !(name.any badChar) := by
    unfold fastIdentifyB
    rw [show MAX_FILES = 1023 + 1 from rfl, fastIdentifyGo_succ, hL, hre, hd]
    rw [if_neg (by simp only [FATENTRY_LEN]; omega),
      if_neg (by simp only [FATENTRY_LEN]; omega)]
    cases hb : name.any badChar with
    | true => simp
    | false =>
      simp only [Bool.not_false]
      rw [if_neg (by simp [hb])]
      rw [if_neg (by simp)]
      decide
  constructor
  · intro h
    have : fastIdentifyB (mkRecord 0 0 name 0) = false := by
      have := congrArg IdentifyResult.validProp h
      cases hfi : fastIdentifyB (mkRecord 0 0 name 0) with
      | false => rfl
      | true =>
        exfalso
        unfold Archive_DAT_FAST.identify at h
        rw [hfi] at h
        exact Bool.noConfusion (IdentifyResult.bool.inj h)
    rw [key] at this
    cases hb : name.any badChar with
    | true => rfl
    | false => rw [hb] at this; exact Bool.noConfusion this
  · intro hb
    unfold Archive_DAT_FAST.identify
    rw [key, hb]
    rfl

/-- Closed instance of the amended filename-validation rule at the name AB
(accepted) via the equivalence. -/
theorem identify_name_validation_iff_witness :
    (Archive_DAT_FAST.identify (mkRecord 0 0 [65, 66] 0) =
      IdentifyResult.bool false) ↔ [65, 66].any badChar = true :=
  identify_name_validation_iff [65, 66] (by decide) (by decide)

/-- C7: a well-formed 37-byte record whose declared compressed size exceeds
the number of bytes remaining after it makes identify reject the input:
the file body would run past the end of the container. -/
theorem identify_oversized_body_rejected (tc cs ds : Nat)
    (name tail : List Nat) (hcs : cs < 65536) (h1 : name.length ≤ 30)
    (h2 : ∀ c ∈ name, 33 ≤ c ∧ c ≤ 126) (hover : tail.length < cs) :
    Archive_DAT_FAST.identify (mkRecord tc cs name ds ++ tail) =
      IdentifyResult.bool false := by
  have h0 : ∀ c ∈ name, c ≠ 0 := fun c hc => by
    have := (h2 c hc).1
    omega
  have hre := readFatEntry_mkRecord tc cs ds name tail h1 h0
  have hcseq : u16le (cs % 256) (cs / 256) = cs := by
    unfold u16le
    omega
  rw [hcseq] at hre
  have hlen : (mkRecord tc cs name ds ++ tail).length =
      FATENTRY_LEN + tail.length := by
    rw [List.length_append, mkRecord_length tc cs ds name (by omega)]
  have hdrop : (mkRecord tc cs name ds ++ tail).drop FATENTRY_LEN = tail :=
    mkRecord_append_drop tc cs ds name tail h1
  have hnamecheck : name.any badChar = false := by
    rw [List.any_eq_false]
    intro c hc
    have hcl := h2 c hc
    have hA : decide (c ≤ 32) = false := by
      simp only [decide_eq_false_iff_not]
      omega
    have hB : decide (126 < c) = false := by
      simp only [decide_eq_false_iff_not]
      omega
    simp [badChar, hA, hB]
  unfold Archive_DAT_FAST.identify fastIdentifyB
  rw [show MAX_FILES = 1023 + 1 from rfl, fastIdentifyGo_succ, hlen, hre,
    hdrop]
  rw [if_neg (by simp only [FATENTRY_LEN]; omega),
    if_neg (by simp only [FATENTRY_LEN]; omega)]
  rw [if_neg (by simp [hnamecheck])]
  rw [if_pos hover]

/-- Closed instance of the oversized-body rejection: a record declaring a
5-byte body with no bytes following it. -/
theorem identify_oversized_body_rejected_witness :
    Archive_DAT_FAST.identify (mkRecord 0 5 [65] 0 ++ []) =
      IdentifyResult.bool false :=
  identify_oversized_body_rejected 0 5 0 [65] [] (by decide) (by decide)
    (by decide) (by decide)

/-- Unfolding of one iteration of the parse record walk. -/
theorem parseGo_succ (fuel : Nat) (bytes : List Nat) (off : Nat)
    (acc : List ParsedFile) :
    Archive_DAT_FAST.parseGo (fuel + 1) bytes off acc =
      if bytes.length = 0 then Except.ok acc.reverse
      else if bytes.length < FATENTRY_LEN then
        Except.error "read past end of buffer"
      else Archive_DAT_FAST.parseGo fuel
        ((bytes.drop FATENTRY_LEN).drop (readFatEntry bytes).compressedSize)
        (off + (readFatEntry bytes).compressedSize + FATENTRY_LEN)
        (Archive_DAT_FAST.mkParsedFile (readFatEntry bytes) off
          (bytes.drop FATENTRY_LEN) :: acc) :=
  rfl

/-- Any successful parse walk returns at most one file per remaining loop
iteration beyond what was already accumulated. -/
theorem parseGo_ok_length_le :
    ∀ (fuel : Nat) (bytes : List Nat) (off : Nat)
      (acc files : List ParsedFile),
      Archive_DAT_FAST.parseGo fuel bytes off acc = Except.ok files →
      files.length ≤ fuel + acc.length := by
  intro fuel
  induction fuel with
  | zero =>
    intro bytes off acc files h
    simp only [Archive_DAT_FAST.parseGo] at h
    cases h
    simp
  | succ fuel ih =>
    intro bytes off acc files h
    rw [parseGo_succ] at h
    by_cases h0 : bytes.length = 0
    · rw [if_pos h0] at h
      cases h
      simp
    · rw [if_neg h0] at h
      by_cases h37 : bytes.length < FATENTRY_LEN
      · rw [if_pos h37] at h
        cases h
      · rw [if_neg h37] at h
        have hres := ih _ _ _ _ h
        simp only [List.length_cons] at hres
        omega

/-- The canonical well-formed 37-byte record with an empty body: type code
0, compressed size 0, name A, stored uncompressed. -/
def emptyRec : List Nat := mkRecord 0 0 [65] 0

/-- A container consisting of `n` consecutive copies of `emptyRec`. -/
def repRecs : Nat → List Nat
  | 0 => []
  | n + 1 => emptyRec ++ repRecs n

theorem readFatEntry_emptyRec (rest : List Nat) :
    readFatEntry (emptyRec ++ rest) = ⟨0, 0, [65], 0⟩ := by
  have h := readFatEntry_mkRecord 0 0 0 [65] rest (by decide) (by decide)
  simpa [emptyRec, u16le] using h

theorem emptyRec_append_drop (rest : List Nat) :
    (emptyRec ++ rest).drop FATENTRY_LEN = rest :=
  mkRecord_append_drop 0 0 0 [65] rest (by decide)

/-- Walking a container of `n` empty records with `fuel` iterations left
always succeeds and accumulates exactly `min fuel n` further files: once
the counter runs out the remaining records are silently ignored. -/
theorem parseGo_repRecs :
    ∀ (fuel n off : Nat) (acc : List ParsedFile),
      ∃ files,
        Archive_DAT_FAST.parseGo fuel (repRecs n) off acc =
          Except.ok files ∧
        files.length = acc.length + min fuel n := by
  intro fuel
  induction fuel with
  | zero =>
    intro n off acc
    exact ⟨acc.reverse, rfl, by simp⟩
  | succ fuel ih =>
    intro n off acc
    cases n with
    | zero =>
      refine ⟨acc.reverse, ?_, by simp⟩
      rw [show repRecs 0 = [] from rfl, parseGo_succ]
      simp
    | succ n =>
      have hlen : (emptyRec ++ repRecs n).length =
          FATENTRY_LEN + (repRecs n).length := by
        rw [List.length_append,
          show emptyRec.length = FATENTRY_LEN from
            mkRecord_length 0 0 0 [65] (by decide)]
      have hstep :
          Archive_DAT_FAST.parseGo (fuel + 1) (repRecs (n + 1)) off acc =
            Archive_DAT_FAST.parseGo fuel (repRecs n)
              (off + 0 + FATENTRY_LEN)
              (Archive_DAT_FAST.mkParsedFile ⟨0, 0, [65], 0⟩ off
                (repRecs n) :: acc) := by
        rw [show repRecs (n + 1) = emptyRec ++ repRecs n from rfl,
          parseGo_succ, hlen, readFatEntry_emptyRec, emptyRec_append_drop]
        rw [if_neg (by simp only [FATENTRY_LEN]; omega),
          if_neg (by simp only [FATENTRY_LEN]; omega)]
        rfl
      obtain ⟨files, hok, hflen⟩ :=
        ih n (off + 0 + FATENTRY_LEN)
          (Archive_DAT_FAST.mkParsedFile ⟨0, 0, [65], 0⟩ off
            (repRecs n) :: acc)
      refine ⟨files, ?_, ?_⟩
      · rw [hstep, hok]
      · rw [hflen]
        simp only [List.length_cons]
        omega

/-- C9: every archive `parse` returns holds at most `MAX_FILES` member
files; and on a container of `n` well-formed records, parse succeeds with
exactly `min n MAX_FILES` files, so any records beyond the 1024th are
silently omitted without an error. -/
theorem parse_at_most_max_files :
    (∀ bytes files, Archive_DAT_FAST.parse bytes = Except.ok files →
      files.length ≤ MAX_FILES) ∧
    (∀ n, ∃ files,
      Archive_DAT_FAST.parse (repRecs n) = Except.ok files ∧
      files.length = min n MAX_FILES) := by
  constructor
  · intro bytes files h
    have := parseGo_ok_length_le MAX_FILES bytes FATENTRY_LEN [] files h
    simpa using this
  · intro n
    obtain ⟨files, hok, hlen⟩ := parseGo_repRecs MAX_FILES n FATENTRY_LEN []
    refine ⟨files, hok, ?_⟩
    rw [hlen]
    simp [Nat.min_comm]

/-- Closed instance of the file-count bound through the general theorem at
the empty container. -/
theorem parse_at_most_max_files_witness :
    Archive_DAT_FAST.parse [] = Except.ok [] ∧
    ([] : List ParsedFile).length ≤ MAX_FILES := by
  refine ⟨by decide, parse_at_most_max_files.1 [] [] (by decide)⟩
